import Mathlib

/-!
Verification of the stock-monitor dashboard (src/app.py).

Shallow embedding conventions:
* Calendar dates and timestamps are integers (days on an abstract axis);
  `pd.Timestamp.now() - pd.DateOffset(years=LOOKBACK_YEARS)` is embedded as
  `now - lookbackDays`.
* Float prices are embedded as integers: the verified claims use only
  comparison, selection and equality on prices, never float arithmetic, so
  any linearly ordered carrier is order-faithful.
* A pandas cell that may be NaN after `pd.to_numeric` with coerce errors or
  `pd.to_datetime` with coerce errors is an `Option Int` (`none` = NaN/NaT).
* A fallible upstream call (network error, malformed schema, missing
  column) is an `Except Unit _` input to the adapter; the Python
  `try/except` that converts any exception to `None` is the `.error`
  branch returning `none`.
-/

namespace StockMonitor

/-- Config.LOOKBACK_YEARS from src/app.py (数据回溯年限). -/
def LOOKBACK_YEARS : Int := 5

/-- Days in a year on the abstract date axis; `pd.DateOffset(years := n)`
is embedded as a shift by `n * daysPerYear`. -/
def daysPerYear : Int := 365

/-- Length of the lookback window on the abstract date axis. -/
def lookbackDays : Int := LOOKBACK_YEARS * daysPerYear

/-- The cutoff computed in `DataFetcher._clean_dataframe`:
`pd.Timestamp.now() - pd.DateOffset(years=Config.LOOKBACK_YEARS)`. -/
def cutoffDate (now : Int) : Int := now - lookbackDays

/-- One row of an upstream table after column normalization, with the
date cell as produced by `pd.to_datetime` (coerce errors) and the
price cells as produced by `pd.to_numeric` (coerce errors)
(`none` = unparseable). -/
structure RawRow where
  date : Option Int
  close : Option Int
  high : Option Int
  low : Option Int
deriving DecidableEq

/-- An upstream table: the rows plus which of the `high`/`low` columns
are present (`_clean_dataframe` synthesizes an absent column from
`close`).  A `close` column is assumed present; an upstream table without
one makes the close-column access raise, which surfaces as the
`Except.error` input of the adapter. -/
structure RawTable where
  hasHigh : Bool
  hasLow : Bool
  rows : List RawRow
deriving DecidableEq

/-- A row of the cleaned dataframe: date parsed and inside the window,
`close` non-null; `high`/`low` may still be null when their column was
present but a cell failed numeric parsing. -/
structure Row where
  date : Int
  close : Int
  high : Option Int
  low : Option Int
deriving DecidableEq

/-- Row-wise effect of `DataFetcher._clean_dataframe`: drop rows with an
unparseable date, keep only dates `≥ cutoff`, synthesize `high`/`low`
from the numeric `close` when the column is absent, drop rows with null
`close`. -/
def cleanRow (now : Int) (hasHigh hasLow : Bool) (r : RawRow) : Option Row :=
  match r.date with
  | none => none
  | some d =>
    if cutoffDate now ≤ d then
      match r.close with
      | none => none
      | some c =>
        some { date := d, close := c,
               high := if hasHigh then r.high else some c,
               low := if hasLow then r.low else some c }
    else none

/-- Embedding of `DataFetcher._clean_dataframe` (src/app.py lines 130-155).  All the
pandas steps are row-independent, so the whole routine is a `filterMap`;
in particular it neither sorts nor deduplicates. -/
def cleanDataframe (now : Int) (t : RawTable) : List Row :=
  t.rows.filterMap (cleanRow now t.hasHigh t.hasLow)

/-- The metrics dict built by `DataFetcher._extract_metrics`:
`cur`/`hv`/`hd`/`lv`/`ld`, with the optional `source` tag added by the
cross-border adapters. -/
structure Metrics where
  cur : Int
  hv : Int
  hd : Int
  lv : Int
  ld : Int
  source : Option String
deriving DecidableEq

/-- Embedding of the high-column `idxmax` followed by `df.loc`: the first row
(in row order) whose non-null `high` is maximal; rows with null `high`
are skipped, as pandas `idxmax` does. -/
def argmaxHighRow : List Row → Option Row
  | [] => none
  | r :: rest =>
    match r.high with
    | none => argmaxHighRow rest
    | some v =>
      match argmaxHighRow rest with
      | none => some r
      | some b =>
        match b.high with
        | none => some r
        | some bv => if v < bv then some b else some r

/-- Embedding of the low-column `idxmin` followed by `df.loc`: the first row
(in row order) whose non-null `low` is minimal. -/
def argminLowRow : List Row → Option Row
  | [] => none
  | r :: rest =>
    match r.low with
    | none => argminLowRow rest
    | some v =>
      match argminLowRow rest with
      | none => some r
      | some b =>
        match b.low with
        | none => some r
        | some bv => if bv < v then some b else some r

/-- Embedding of `DataFetcher._extract_metrics` (src/app.py lines 157-173): `None` on
an empty frame, else current = close of the last row (`df.iloc[-1]`),
high/low extrema via `idxmax`/`idxmin`.  The degenerate case where every
`high` (or `low`) cell is null makes pandas raise inside the `try` of
the adapter, which the caller sees as `None`; it is embedded as `none` here. -/
def extractMetrics (df : List Row) : Option Metrics :=
  match df.getLast? with
  | none => none
  | some last =>
    match argmaxHighRow df, argminLowRow df with
    | some hr, some lr =>
      match hr.high, lr.low with
      | some hv, some lv =>
        some { cur := last.close, hv := hv, hd := hr.date,
               lv := lv, ld := lr.date, source := none }
      | _, _ => none
    | _, _ => none

theorem argmaxHighRow_eq_none : ∀ {l : List Row}, argmaxHighRow l = none →
    ∀ r ∈ l, r.high = none := by
  intro l
  induction l with
  | nil => intro _ r hr; cases hr
  | cons a rest ih =>
    intro h r hr
    simp only [argmaxHighRow] at h
    cases ha : a.high with
    | some v =>
      simp only [ha] at h
      cases hrest : argmaxHighRow rest with
      | none => simp only [hrest] at h; exact Option.noConfusion h
      | some b =>
        simp only [hrest] at h
        cases hb : b.high with
        | none => simp only [hb] at h; exact Option.noConfusion h
        | some bv => simp only [hb] at h; split at h <;> cases h
    | none =>
      simp only [ha] at h
      rcases List.mem_cons.mp hr with rfl | hr
      · exact ha
      · exact ih h r hr

theorem argmaxHighRow_spec : ∀ (l : List Row) (b : Row), argmaxHighRow l = some b →
    b ∈ l ∧ ∃ bv, b.high = some bv ∧ ∀ r ∈ l, ∀ v, r.high = some v → v ≤ bv := by
  intro l
  induction l with
  | nil => intro b h; cases h
  | cons a rest ih =>
    intro b h
    simp only [argmaxHighRow] at h
    cases ha : a.high with
    | none =>
      simp only [ha] at h
      obtain ⟨hmem, bv, hbv, hmax⟩ := ih b h
      refine ⟨List.mem_cons_of_mem _ hmem, bv, hbv, ?_⟩
      intro r hr v hv
      rcases List.mem_cons.mp hr with rfl | hr
      · rw [ha] at hv; cases hv
      · exact hmax r hr v hv
    | some v =>
      simp only [ha] at h
      cases hrest : argmaxHighRow rest with
      | none =>
        simp only [hrest] at h
        injection h with h
        subst h
        refine ⟨List.mem_cons_self _ _, v, ha, ?_⟩
        intro r hr w hw
        rcases List.mem_cons.mp hr with rfl | hr
        · rw [ha] at hw; injection hw with hw; omega
        · rw [argmaxHighRow_eq_none hrest r hr] at hw; cases hw
      | some b0 =>
        simp only [hrest] at h
        obtain ⟨hmem0, bv0, hbv0, hmax0⟩ := ih b0 hrest
        simp only [hbv0] at h
        by_cases hlt : v < bv0
        · rw [if_pos hlt] at h
          injection h with h
          subst h
          refine ⟨List.mem_cons_of_mem _ hmem0, bv0, hbv0, ?_⟩
          intro r hr w hw
          rcases List.mem_cons.mp hr with rfl | hr
          · rw [ha] at hw; injection hw with hw; omega
          · exact hmax0 r hr w hw
        · rw [if_neg hlt] at h
          injection h with h
          subst h
          refine ⟨List.mem_cons_self _ _, v, ha, ?_⟩
          intro r hr w hw
          rcases List.mem_cons.mp hr with rfl | hr
          · rw [ha] at hw; injection hw with hw; omega
          · have := hmax0 r hr w hw; omega

theorem argmaxHighRow_earliest : ∀ (l : List Row),
    l.Pairwise (fun x y => x.date < y.date) →
    ∀ b, argmaxHighRow l = some b →
    ∀ r ∈ l, r.high = b.high → b.date ≤ r.date := by
  intro l
  induction l with
  | nil => intro _ b h; cases h
  | cons a rest ih =>
    intro hpw b h r hr hsame
    have hhead := (List.pairwise_cons.mp hpw).1
    have htail := (List.pairwise_cons.mp hpw).2
    simp only [argmaxHighRow] at h
    cases ha : a.high with
    | none =>
      simp only [ha] at h
      obtain ⟨-, bv, hbv, -⟩ := argmaxHighRow_spec rest b h
      rcases List.mem_cons.mp hr with rfl | hr
      · rw [ha, hbv] at hsame; cases hsame
      · exact ih htail b h r hr hsame
    | some v =>
      simp only [ha] at h
      cases hrest : argmaxHighRow rest with
      | none =>
        simp only [hrest] at h
        injection h with h
        subst h
        rcases List.mem_cons.mp hr with rfl | hr
        · exact le_refl _
        · exact le_of_lt (hhead r hr)
      | some b0 =>
        simp only [hrest] at h
        obtain ⟨-, bv0, hbv0, -⟩ := argmaxHighRow_spec rest b0 hrest
        simp only [hbv0] at h
        by_cases hlt : v < bv0
        · rw [if_pos hlt] at h
          injection h with h
          subst h
          rcases List.mem_cons.mp hr with rfl | hr
          · rw [ha, hbv0] at hsame; injection hsame with hsame; omega
          · exact ih htail _ hrest r hr hsame
        · rw [if_neg hlt] at h
          injection h with h
          subst h
          rcases List.mem_cons.mp hr with rfl | hr
          · exact le_refl _
          · exact le_of_lt (hhead r hr)

theorem argminLowRow_eq_none : ∀ {l : List Row}, argminLowRow l = none →
    ∀ r ∈ l, r.low = none := by
  intro l
  induction l with
  | nil => intro _ r hr; cases hr
  | cons a rest ih =>
    intro h r hr
    simp only [argminLowRow] at h
    cases ha : a.low with
    | some v =>
      simp only [ha] at h
      cases hrest : argminLowRow rest with
      | none => simp only [hrest] at h; exact Option.noConfusion h
      | some b =>
        simp only [hrest] at h
        cases hb : b.low with
        | none => simp only [hb] at h; exact Option.noConfusion h
        | some bv => simp only [hb] at h; split at h <;> cases h
    | none =>
      simp only [ha] at h
      rcases List.mem_cons.mp hr with rfl | hr
      · exact ha
      · exact ih h r hr

theorem argminLowRow_spec : ∀ (l : List Row) (b : Row), argminLowRow l = some b →
    b ∈ l ∧ ∃ bv, b.low = some bv ∧ ∀ r ∈ l, ∀ v, r.low = some v → bv ≤ v := by
  intro l
  induction l with
  | nil => intro b h; cases h
  | cons a rest ih =>
    intro b h
    simp only [argminLowRow] at h
    cases ha : a.low with
    | none =>
      simp only [ha] at h
      obtain ⟨hmem, bv, hbv, hmin⟩ := ih b h
      refine ⟨List.mem_cons_of_mem _ hmem, bv, hbv, ?_⟩
      intro r hr v hv
      rcases List.mem_cons.mp hr with rfl | hr
      · rw [ha] at hv; cases hv
      · exact hmin r hr v hv
    | some v =>
      simp only [ha] at h
      cases hrest : argminLowRow rest with
      | none =>
        simp only [hrest] at h
        injection h with h
        subst h
        refine ⟨List.mem_cons_self _ _, v, ha, ?_⟩
        intro r hr w hw
        rcases List.mem_cons.mp hr with rfl | hr
        · rw [ha] at hw; injection hw with hw; omega
        · rw [argminLowRow_eq_none hrest r hr] at hw; cases hw
      | some b0 =>
        simp only [hrest] at h
        obtain ⟨hmem0, bv0, hbv0, hmin0⟩ := ih b0 hrest
        simp only [hbv0] at h
        by_cases hlt : bv0 < v
        · rw [if_pos hlt] at h
          injection h with h
          subst h
          refine ⟨List.mem_cons_of_mem _ hmem0, bv0, hbv0, ?_⟩
          intro r hr w hw
          rcases List.mem_cons.mp hr with rfl | hr
          · rw [ha] at hw; injection hw with hw; omega
          · exact hmin0 r hr w hw
        · rw [if_neg hlt] at h
          injection h with h
          subst h
          refine ⟨List.mem_cons_self _ _, v, ha, ?_⟩
          intro r hr w hw
          rcases List.mem_cons.mp hr with rfl | hr
          · rw [ha] at hw; injection hw with hw; omega
          · have := hmin0 r hr w hw; omega

theorem argminLowRow_earliest : ∀ (l : List Row),
    l.Pairwise (fun x y => x.date < y.date) →
    ∀ b, argminLowRow l = some b →
    ∀ r ∈ l, r.low = b.low → b.date ≤ r.date := by
  intro l
  induction l with
  | nil => intro _ b h; cases h
  | cons a rest ih =>
    intro hpw b h r hr hsame
    have hhead := (List.pairwise_cons.mp hpw).1
    have htail := (List.pairwise_cons.mp hpw).2
    simp only [argminLowRow] at h
    cases ha : a.low with
    | none =>
      simp only [ha] at h
      obtain ⟨-, bv, hbv, -⟩ := argminLowRow_spec rest b h
      rcases List.mem_cons.mp hr with rfl | hr
      · rw [ha, hbv] at hsame; cases hsame
      · exact ih htail b h r hr hsame
    | some v =>
      simp only [ha] at h
      cases hrest : argminLowRow rest with
      | none =>
        simp only [hrest] at h
        injection h with h
        subst h
        rcases List.mem_cons.mp hr with rfl | hr
        · exact le_refl _
        · exact le_of_lt (hhead r hr)
      | some b0 =>
        simp only [hrest] at h
        obtain ⟨-, bv0, hbv0, -⟩ := argminLowRow_spec rest b0 hrest
        simp only [hbv0] at h
        by_cases hlt : bv0 < v
        · rw [if_pos hlt] at h
          injection h with h
          subst h
          rcases List.mem_cons.mp hr with rfl | hr
          · rw [ha, hbv0] at hsame; injection hsame with hsame; omega
          · exact ih htail _ hrest r hr hsame
        · rw [if_neg hlt] at h
          injection h with h
          subst h
          rcases List.mem_cons.mp hr with rfl | hr
          · exact le_refl _
          · exact le_of_lt (hhead r hr)

theorem getLast_date_max : ∀ (l : List Row), l.Pairwise (fun x y => x.date < y.date) →
    ∀ last, l.getLast? = some last → ∀ r ∈ l, r.date ≤ last.date := by
  intro l
  induction l with
  | nil => intro _ last h; cases h
  | cons a rest ih =>
    intro hpw last h r hr
    have hhead := (List.pairwise_cons.mp hpw).1
    have htail := (List.pairwise_cons.mp hpw).2
    cases rest with
    | nil =>
      simp only [List.getLast?_singleton] at h
      injection h with h
      subst h
      rcases List.mem_cons.mp hr with rfl | hr
      · exact le_refl _
      · cases hr
    | cons b rest2 =>
      rw [List.getLast?_cons_cons] at h
      have hlastmem : last ∈ b :: rest2 := List.mem_of_getLast?_eq_some h
      rcases List.mem_cons.mp hr with rfl | hr
      · exact le_of_lt (hhead last hlastmem)
      · exact ih htail last h r hr

/-- C1: on a nonempty normalized series (all `high`/`low` cells non-null,
dates strictly increasing, the NormalizedSeries invariants), the
`hv`/`hd` of the extractor are the maximum of `high` paired with the earliest
date achieving it, and `lv`/`ld` are the minimum of `low` paired with the
earliest date achieving it. -/
theorem extractMetrics_extrema (df : List Row) (hne : df ≠ [])
    (hvals : ∀ r ∈ df, r.high.isSome ∧ r.low.isSome)
    (hsorted : df.Pairwise (fun x y => x.date < y.date)) :
    ∃ m, extractMetrics df = some m ∧
      (∀ r ∈ df, ∀ v, r.high = some v → v ≤ m.hv) ∧
      (∃ r ∈ df, r.high = some m.hv ∧ r.date = m.hd) ∧
      (∀ r ∈ df, r.high = some m.hv → m.hd ≤ r.date) ∧
      (∀ r ∈ df, ∀ v, r.low = some v → m.lv ≤ v) ∧
      (∃ r ∈ df, r.low = some m.lv ∧ r.date = m.ld) ∧
      (∀ r ∈ df, r.low = some m.lv → m.ld ≤ r.date) := by
  obtain ⟨x, hx⟩ := List.exists_mem_of_ne_nil df hne
  obtain ⟨last, hlast⟩ := Option.isSome_iff_exists.mp (List.getLast?_isSome.mpr hne)
  cases hmx : argmaxHighRow df with
  | none =>
    exfalso
    have h1 := argmaxHighRow_eq_none hmx x hx
    have h2 := (hvals x hx).1
    rw [h1] at h2
    simp at h2
  | some hr =>
  cases hmn : argminLowRow df with
  | none =>
    exfalso
    have h1 := argminLowRow_eq_none hmn x hx
    have h2 := (hvals x hx).2
    rw [h1] at h2
    simp at h2
  | some lr =>
  obtain ⟨hrmem, hv, hhv, hmax⟩ := argmaxHighRow_spec df hr hmx
  obtain ⟨lrmem, lv, hlv, hmin⟩ := argminLowRow_spec df lr hmn
  refine ⟨⟨last.close, hv, hr.date, lv, lr.date, none⟩, ?_, ?_, ?_, ?_, ?_, ?_, ?_⟩
  · simp only [extractMetrics, hlast, hmx, hmn, hhv, hlv]
  · intro r hrm v hvm
    exact hmax r hrm v hvm
  · exact ⟨hr, hrmem, hhv, rfl⟩
  · intro r hrm heq
    exact argmaxHighRow_earliest df hsorted hr hmx r hrm (by rw [heq, hhv])
  · intro r hrm v hvm
    exact hmin r hrm v hvm
  · exact ⟨lr, lrmem, hlv, rfl⟩
  · intro r hrm heq
    exact argminLowRow_earliest df hsorted lr hmn r hrm (by rw [heq, hlv])

/-- Concrete instantiation of `extractMetrics_extrema` on a two-row series. -/
theorem extractMetrics_extrema_witness :
    ∃ m, extractMetrics
        [⟨0, 10, some 21, some 9⟩, ⟨1, 20, some 21, some 19⟩] = some m ∧
      (∀ r ∈ [Row.mk 0 10 (some 21) (some 9), Row.mk 1 20 (some 21) (some 19)],
        ∀ v, r.high = some v → v ≤ m.hv) ∧
      (∃ r ∈ [Row.mk 0 10 (some 21) (some 9), Row.mk 1 20 (some 21) (some 19)],
        r.high = some m.hv ∧ r.date = m.hd) ∧
      (∀ r ∈ [Row.mk 0 10 (some 21) (some 9), Row.mk 1 20 (some 21) (some 19)],
        r.high = some m.hv → m.hd ≤ r.date) ∧
      (∀ r ∈ [Row.mk 0 10 (some 21) (some 9), Row.mk 1 20 (some 21) (some 19)],
        ∀ v, r.low = some v → m.lv ≤ v) ∧
      (∃ r ∈ [Row.mk 0 10 (some 21) (some 9), Row.mk 1 20 (some 21) (some 19)],
        r.low = some m.lv ∧ r.date = m.ld) ∧
      (∀ r ∈ [Row.mk 0 10 (some 21) (some 9), Row.mk 1 20 (some 21) (some 19)],
        r.low = some m.lv → m.ld ≤ r.date) :=
  extractMetrics_extrema
    [⟨0, 10, some 21, some 9⟩, ⟨1, 20, some 21, some 19⟩]
    (by decide) (by decide) (by decide)

/-- C4: on a nonempty normalized series with strictly increasing dates,
`cur` is the `close` of the last row, and the last row carries the most
recent date in the series. -/
theorem extractMetrics_current (df : List Row) (hne : df ≠ [])
    (hvals : ∀ r ∈ df, r.high.isSome ∧ r.low.isSome)
    (hsorted : df.Pairwise (fun x y => x.date < y.date)) :
    ∃ m last, extractMetrics df = some m ∧ df.getLast? = some last ∧
      m.cur = last.close ∧ ∀ r ∈ df, r.date ≤ last.date := by
  obtain ⟨x, hx⟩ := List.exists_mem_of_ne_nil df hne
  obtain ⟨last, hlast⟩ := Option.isSome_iff_exists.mp (List.getLast?_isSome.mpr hne)
  cases hmx : argmaxHighRow df with
  | none =>
    exfalso
    have h1 := argmaxHighRow_eq_none hmx x hx
    have h2 := (hvals x hx).1
    rw [h1] at h2
    simp at h2
  | some hr =>
  cases hmn : argminLowRow df with
  | none =>
    exfalso
    have h1 := argminLowRow_eq_none hmn x hx
    have h2 := (hvals x hx).2
    rw [h1] at h2
    simp at h2
  | some lr =>
  obtain ⟨-, hv, hhv, -⟩ := argmaxHighRow_spec df hr hmx
  obtain ⟨-, lv, hlv, -⟩ := argminLowRow_spec df lr hmn
  refine ⟨⟨last.close, hv, hr.date, lv, lr.date, none⟩, last, ?_, hlast, rfl, ?_⟩
  · simp only [extractMetrics, hlast, hmx, hmn, hhv, hlv]
  · exact getLast_date_max df hsorted last hlast

/-- Concrete instantiation of `extractMetrics_current` on a two-row series. -/
theorem extractMetrics_current_witness :
    ∃ m last, extractMetrics
        [⟨0, 10, some 21, some 9⟩, ⟨1, 20, some 21, some 19⟩] = some m ∧
      [Row.mk 0 10 (some 21) (some 9), Row.mk 1 20 (some 21) (some 19)].getLast? = some last ∧
      m.cur = last.close ∧
      ∀ r ∈ [Row.mk 0 10 (some 21) (some 9), Row.mk 1 20 (some 21) (some 19)],
        r.date ≤ last.date :=
  extractMetrics_current
    [⟨0, 10, some 21, some 9⟩, ⟨1, 20, some 21, some 19⟩]
    (by decide) (by decide) (by decide)

theorem cleanRow_date {now : Int} {hh hl : Bool} {x : RawRow} {r : Row}
    (h : cleanRow now hh hl x = some r) :
    x.date = some r.date ∧ cutoffDate now ≤ r.date := by
  unfold cleanRow at h
  cases hd : x.date with
  | none => rw [hd] at h; cases h
  | some d =>
    simp only [hd] at h
    split at h
    · cases hc : x.close with
      | none => rw [hc] at h; cases h
      | some c =>
        simp only [hc] at h
        injection h with h
        subst h
        exact ⟨rfl, by assumption⟩
    · cases h

/-- C2 counterexample: with `now = 0`, a raw row dated `1` — strictly in
the future — survives cleaning, so the output is not contained in the
closed interval `[now - lookback, now]`. -/
theorem cleanDataframe_future_row :
    cleanDataframe 0 ⟨true, true, [⟨some 1, some 10, some 10, some 10⟩]⟩ =
      [⟨1, 10, some 10, some 10⟩] ∧ ¬ ((1 : Int) ≤ 0) := by decide

/-- C2 (amended): every row retained by `_clean_dataframe` has a date at
least `now - LOOKBACK_YEARS`; the routine imposes no upper bound, so
nothing excludes future-dated rows. -/
theorem cleanDataframe_lower_bound (now : Int) (t : RawTable) :
    ∀ r ∈ cleanDataframe now t, cutoffDate now ≤ r.date := by
  intro r hr
  simp only [cleanDataframe] at hr
  obtain ⟨raw, -, hclean⟩ := List.mem_filterMap.mp hr
  exact (cleanRow_date hclean).2

/-- Concrete instantiation of `cleanDataframe_lower_bound`. -/
theorem cleanDataframe_lower_bound_witness :
    cutoffDate 0 ≤ (Row.mk 1 10 (some 10) (some 10)).date :=
  cleanDataframe_lower_bound 0 ⟨true, true, [⟨some 1, some 10, some 10, some 10⟩]⟩
    ⟨1, 10, some 10, some 10⟩ (by decide)

/-- C3 counterexample: `_clean_dataframe` neither sorts nor deduplicates —
an input whose rows arrive out of date order, with a duplicated date,
yields an output that is not ascending and still holds the duplicate. -/
theorem cleanDataframe_not_sorting :
    ¬ List.Pairwise (fun x y : Row => x.date ≤ y.date)
        (cleanDataframe 0 ⟨true, true,
          [⟨some 2, some 10, some 10, some 10⟩,
           ⟨some 1, some 11, some 11, some 11⟩,
           ⟨some 1, some 12, some 12, some 12⟩]⟩) ∧
    ¬ ((cleanDataframe 0 ⟨true, true,
          [⟨some 2, some 10, some 10, some 10⟩,
           ⟨some 1, some 11, some 11, some 11⟩,
           ⟨some 1, some 12, some 12, some 12⟩]⟩).map Row.date).Nodup := by decide

/-- C3 (amended): the cleaning routine is a row filter, so it preserves
the relative row order of the input and performs no sorting and no
deduplication; consequently its output is ascending by date exactly when
the retained input rows already are — here: a date-monotone input yields
a date-monotone output. -/
theorem cleanDataframe_preserves_monotone (now : Int) (t : RawTable)
    (hmono : t.rows.Pairwise (fun x y => ∀ dx ∈ x.date, ∀ dy ∈ y.date, dx ≤ dy)) :
    (cleanDataframe now t).Pairwise (fun x y => x.date ≤ y.date) := by
  simp only [cleanDataframe]
  rw [List.pairwise_filterMap]
  refine hmono.imp ?_
  intro a b hab r hr s hs
  have har := cleanRow_date (Option.mem_def.mp hr)
  have hbs := cleanRow_date (Option.mem_def.mp hs)
  exact hab r.date (Option.mem_def.mpr har.1) s.date (Option.mem_def.mpr hbs.1)

/-- Concrete instantiation of `cleanDataframe_preserves_monotone`. -/
theorem cleanDataframe_preserves_monotone_witness :
    (cleanDataframe 0 ⟨true, true,
      [⟨some 1, some 10, some 10, some 10⟩,
       ⟨some 2, some 11, some 11, some 11⟩]⟩).Pairwise
      (fun x y : Row => x.date ≤ y.date) :=
  cleanDataframe_preserves_monotone 0
    ⟨true, true,
      [⟨some 1, some 10, some 10, some 10⟩,
       ⟨some 2, some 11, some 11, some 11⟩]⟩ (by decide)

/-- One row returned by `pro.index_daily` (Tushare) after the fixed-format
fixed-format date parse of `trade_date` (which raises rather than
coerces, a failure absorbed by the `try` of the adapter) and numeric
coercion of the price cells. -/
structure TuRow where
  date : Int
  close : Option Int
  high : Option Int
  low : Option Int
deriving DecidableEq

/-- The frame manipulation inside `fetch_zhonggai_tushare`: sort by
`trade_date` ascending, then drop rows with null `close`.  The pandas
sort is embedded as an insertion sort; no verified claim depends on the
tie order of pandas quicksort. -/
def tushareClean (df : List TuRow) : List Row :=
  (List.insertionSort (fun a b => a.date ≤ b.date) df).filterMap
    (fun r => r.close.map (fun c => Row.mk r.date c r.high r.low))

/-- Embedding of `DataFetcher.fetch_zhonggai_tushare` (src/app.py lines 176-213):
`None` on fetch error or an empty frame (before or after cleaning), else
the extracted metrics tagged with source "Tushare". -/
def fetch_zhonggai_tushare (fetch : Except Unit (List TuRow)) : Option Metrics :=
  match fetch with
  | .error _ => none
  | .ok df =>
    if df = [] then none
    else if tushareClean df = [] then none
    else (extractMetrics (tushareClean df)).map
      (fun m => { m with source := some "Tushare" })

/-- Embedding of `DataFetcher.fetch_zhonggai_etf` (src/app.py lines 216-255): `None` on
fetch error or an empty frame (before or after `_clean_dataframe`), else
the extracted metrics tagged with source "ETF". -/
def fetch_zhonggai_etf (now : Int) (fetch : Except Unit RawTable) : Option Metrics :=
  match fetch with
  | .error _ => none
  | .ok t =>
    if t.rows = [] then none
    else if cleanDataframe now t = [] then none
    else (extractMetrics (cleanDataframe now t)).map
      (fun m => { m with source := some "ETF" })

/-- Python `s.startswith(p)` on the character lists of the strings
(kernel-computable, unlike `String.startsWith` whose byte-position loop
does not reduce). -/
def pyStartsWith (s p : String) : Bool := p.data.isPrefixOf s.data

/-- Fuel-structured worker for `pyReplace`; the fuel is the length of the
string, enough because every step consumes at least one character. -/
def pyReplaceAux (pat rep : List Char) : Nat → List Char → List Char
  | _, [] => []
  | 0, s => s
  | fuel + 1, c :: rest =>
    if pat.isPrefixOf (c :: rest) then
      rep ++ pyReplaceAux pat rep fuel (List.drop pat.length (c :: rest))
    else c :: pyReplaceAux pat rep fuel rest

/-- Python `s.replace(old, new)`: every non-overlapping occurrence,
scanned left to right.  The source only calls it with non-empty `old`;
the empty-pattern guard keeps the definition total. -/
def pyReplace (s pat rep : String) : String :=
  if pat.data = [] then s
  else ⟨pyReplaceAux pat.data rep.data s.data.length s.data⟩

/-- The symbol transformation in `fetch_hongkong_index`:
`code.replace("hk", "")` removes every occurrence, as Python
`str.replace` does. -/
def hkSymbol (code : String) : String := pyReplace code "hk" ""

/-- Embedding of `DataFetcher.fetch_hongkong_index` (src/app.py lines 258-278). -/
def fetch_hongkong_index (now : Int) (upstream : String → Except Unit RawTable)
    (code : String) : Option Metrics :=
  match upstream (hkSymbol code) with
  | .error _ => none
  | .ok t =>
    if t.rows = [] then none
    else extractMetrics (cleanDataframe now t)

/-- The symbol transformation in `fetch_us_index`:
`code.replace("gb.", "")` (every occurrence) followed by the two alias
maps INX → .INX and NDX → .NDX. -/
def usSymbol (code : String) : String :=
  if pyReplace code "gb." "" = "INX" then ".INX"
  else if pyReplace code "gb." "" = "NDX" then ".NDX"
  else pyReplace code "gb." ""

/-- Embedding of `DataFetcher.fetch_us_index` (src/app.py lines 281-296); there is
no emptiness check before cleaning in this adapter. -/
def fetch_us_index (now : Int) (upstream : String → Except Unit RawTable)
    (code : String) : Option Metrics :=
  match upstream (usSymbol code) with
  | .error _ => none
  | .ok t => extractMetrics (cleanDataframe now t)

/-- Embedding of `DataFetcher.fetch_a_share_index` (src/app.py lines 299-308): the
code is passed to the upstream source unchanged. -/
def fetch_a_share_index (now : Int) (upstream : String → Except Unit RawTable)
    (code : String) : Option Metrics :=
  match upstream code with
  | .error _ => none
  | .ok t => extractMetrics (cleanDataframe now t)

/-- The outcomes of the external world for one orchestrator call:
whether `TushareClient.get_instance()` yields a client (credential
configured and initialization succeeded), and the result of each
upstream query keyed by the symbol it is called with. -/
structure FetchEnv where
  hasTushare : Bool
  tushareFetch : Except Unit (List TuRow)
  etfFetch : Except Unit RawTable
  hkUpstream : String → Except Unit RawTable
  usUpstream : String → Except Unit RawTable
  aUpstream : String → Except Unit RawTable

/-- The designated special index name (中概互联, the cross-border internet
index). -/
def ZHONGGAI : String := "中概互联"

/-- Embedding of `fetch_index_data` (src/app.py lines 310-343): the orchestrator.
Special-cases the cross-border index with the Tushare-then-ETF fallback
chain, then routes by code prefix: `hk` → Hong Kong, `gb` → US, anything
else → domestic A-share.  The outer `try/except` returning `None` is
subsumed by the `Option` results of the adapters. -/
def fetch_index_data (now : Int) (env : FetchEnv) (name symbol : String) : Option Metrics :=
  if name = ZHONGGAI then
    match (if env.hasTushare then fetch_zhonggai_tushare env.tushareFetch else none) with
    | some result => some result
    | none => fetch_zhonggai_etf now env.etfFetch
  else if pyStartsWith symbol "hk" then
    fetch_hongkong_index now env.hkUpstream symbol
  else if pyStartsWith symbol "gb" then
    fetch_us_index now env.usUpstream symbol
  else
    fetch_a_share_index now env.aUpstream symbol

theorem fetch_zhonggai_tushare_source {fetch : Except Unit (List TuRow)} {m : Metrics}
    (h : fetch_zhonggai_tushare fetch = some m) : m.source = some "Tushare" := by
  cases fetch with
  | error e => simp [fetch_zhonggai_tushare] at h
  | ok df =>
    simp only [fetch_zhonggai_tushare] at h
    split at h
    · cases h
    · split at h
      · cases h
      · obtain ⟨m0, -, hm⟩ := Option.map_eq_some'.mp h
        rw [← hm]

theorem fetch_zhonggai_etf_source {now : Int} {fetch : Except Unit RawTable} {m : Metrics}
    (h : fetch_zhonggai_etf now fetch = some m) : m.source = some "ETF" := by
  cases fetch with
  | error e => simp [fetch_zhonggai_etf] at h
  | ok t =>
    simp only [fetch_zhonggai_etf] at h
    split at h
    · cases h
    · split at h
      · cases h
      · obtain ⟨m0, -, hm⟩ := Option.map_eq_some'.mp h
        rw [← hm]

theorem fetch_index_data_special (now : Int) (env : FetchEnv) (symbol : String) :
    fetch_index_data now env ZHONGGAI symbol =
      match (if env.hasTushare then fetch_zhonggai_tushare env.tushareFetch else none) with
      | some result => some result
      | none => fetch_zhonggai_etf now env.etfFetch := by
  simp [fetch_index_data]

theorem fetch_index_data_nonspecial (now : Int) (env : FetchEnv) (name symbol : String)
    (hn : name ≠ ZHONGGAI) :
    fetch_index_data now env name symbol =
      if pyStartsWith symbol "hk" then fetch_hongkong_index now env.hkUpstream symbol
      else if pyStartsWith symbol "gb" then fetch_us_index now env.usUpstream symbol
      else fetch_a_share_index now env.aUpstream symbol := by
  simp [fetch_index_data, hn]

/-- C5: for the special cross-border index, the orchestrator consults the
official (Tushare) adapter first and only when a client is configured; a
successful official fetch is returned immediately and is tagged
"Tushare"; when the credential is missing or the official adapter fails,
the result is exactly that of the fund-proxy (ETF) adapter, whose successes
are tagged "ETF"; when the proxy also fails the result is the NoData
sentinel `none`. -/
theorem fetch_index_data_zhonggai (now : Int) (env : FetchEnv) (symbol : String) :
    (∀ m, env.hasTushare = true → fetch_zhonggai_tushare env.tushareFetch = some m →
      fetch_index_data now env ZHONGGAI symbol = some m ∧ m.source = some "Tushare") ∧
    ((env.hasTushare = false ∨ fetch_zhonggai_tushare env.tushareFetch = none) →
      fetch_index_data now env ZHONGGAI symbol = fetch_zhonggai_etf now env.etfFetch ∧
      (∀ m, fetch_zhonggai_etf now env.etfFetch = some m → m.source = some "ETF") ∧
      (fetch_zhonggai_etf now env.etfFetch = none →
        fetch_index_data now env ZHONGGAI symbol = none)) := by
  have hroute := fetch_index_data_special now env symbol
  constructor
  · intro m ht hm
    refine ⟨?_, fetch_zhonggai_tushare_source hm⟩
    rw [hroute]
    simp [ht, hm]
  · intro hfail
    have hnone :
        (if env.hasTushare then fetch_zhonggai_tushare env.tushareFetch else none) = none := by
      rcases hfail with hf | hf
      · simp [hf]
      · simp [hf]
    refine ⟨?_, ?_, ?_⟩
    · rw [hroute]
      simp [hnone]
    · intro m hm
      exact fetch_zhonggai_etf_source hm
    · intro hetf
      rw [hroute]
      simp [hnone, hetf]

/-- Environment with a configured Tushare client whose fetch succeeds
with a one-row frame, all other sources failing. -/
def envT : FetchEnv :=
  { hasTushare := true
    tushareFetch := Except.ok [⟨100, some 10, some 12, some 9⟩]
    etfFetch := Except.error ()
    hkUpstream := fun _ => Except.error ()
    usUpstream := fun _ => Except.error ()
    aUpstream := fun _ => Except.error () }

/-- Concrete instantiation of `fetch_index_data_zhonggai`: a successful
official fetch is returned immediately with the "Tushare" tag. -/
theorem fetch_index_data_zhonggai_witness :
    fetch_index_data 5000 envT ZHONGGAI "H30533" =
        some ⟨10, 12, 100, 9, 100, some "Tushare"⟩ ∧
      (Metrics.mk 10 12 100 9 100 (some "Tushare")).source = some "Tushare" :=
  (fetch_index_data_zhonggai 5000 envT "H30533").1
    ⟨10, 12, 100, 9, 100, some "Tushare"⟩ rfl (by decide)

theorem fetch_hongkong_index_err {now : Int} {up : String → Except Unit RawTable}
    {code : String} (h : up (hkSymbol code) = Except.error ()) :
    fetch_hongkong_index now up code = none := by
  simp [fetch_hongkong_index, h]

theorem fetch_us_index_err {now : Int} {up : String → Except Unit RawTable}
    {code : String} (h : up (usSymbol code) = Except.error ()) :
    fetch_us_index now up code = none := by
  simp [fetch_us_index, h]

theorem fetch_a_share_index_err {now : Int} {up : String → Except Unit RawTable}
    {code : String} (h : up code = Except.error ()) :
    fetch_a_share_index now up code = none := by
  simp [fetch_a_share_index, h]

theorem fetch_a_share_index_empty {now : Int} {up : String → Except Unit RawTable}
    {code : String} (h : up code = Except.ok ⟨true, true, []⟩) :
    fetch_a_share_index now up code = none := by
  simp [fetch_a_share_index, h, cleanDataframe, extractMetrics]

/-- C6: when every upstream call fails — or the domestic source returns a
zero-row table whose cleaned series is empty — the orchestrator returns
the NoData sentinel `none` for every (name, symbol) pair.  In the
embedding every failure is a value, mirroring the `try/except` walls in
src/app.py that keep any exception from the caller. -/
theorem fetch_index_data_all_fail (now : Int) (env : FetchEnv) (name symbol : String)
    (h1 : env.tushareFetch = Except.error ())
    (h2 : env.etfFetch = Except.error ())
    (h3 : ∀ s, env.hkUpstream s = Except.error ())
    (h4 : ∀ s, env.usUpstream s = Except.error ())
    (h5 : ∀ s, env.aUpstream s = Except.error () ∨
      env.aUpstream s = Except.ok ⟨true, true, []⟩) :
    fetch_index_data now env name symbol = none := by
  by_cases hn : name = ZHONGGAI
  · subst hn
    rw [fetch_index_data_special]
    have hnone :
        (if env.hasTushare then fetch_zhonggai_tushare env.tushareFetch else none) = none := by
      cases ht : env.hasTushare
      · simp
      · simp [fetch_zhonggai_tushare, h1]
    simp [hnone, fetch_zhonggai_etf, h2]
  · rw [fetch_index_data_nonspecial now env name symbol hn]
    by_cases hhk : pyStartsWith symbol "hk" = true
    · rw [if_pos hhk]
      exact fetch_hongkong_index_err (h3 _)
    · rw [if_neg hhk]
      by_cases hgb : pyStartsWith symbol "gb" = true
      · rw [if_pos hgb]
        exact fetch_us_index_err (h4 _)
      · rw [if_neg hgb]
        rcases h5 symbol with h | h
        · exact fetch_a_share_index_err h
        · exact fetch_a_share_index_empty h

/-- Environment in which every upstream source fails. -/
def envFail : FetchEnv :=
  { hasTushare := true
    tushareFetch := Except.error ()
    etfFetch := Except.error ()
    hkUpstream := fun _ => Except.error ()
    usUpstream := fun _ => Except.error ()
    aUpstream := fun _ => Except.error () }

/-- Concrete instantiation of `fetch_index_data_all_fail`. -/
theorem fetch_index_data_all_fail_witness :
    fetch_index_data 0 envFail "上证指数" "sh000001" = none :=
  fetch_index_data_all_fail 0 envFail "上证指数" "sh000001" rfl rfl
    (fun _ => rfl) (fun _ => rfl) (fun _ => Or.inl rfl)

/-- Environment whose domestic upstream succeeds with a usable one-row
table for every code while every other upstream fails. -/
def envC7 : FetchEnv :=
  { hasTushare := false
    tushareFetch := Except.error ()
    etfFetch := Except.error ()
    hkUpstream := fun _ => Except.error ()
    usUpstream := fun _ => Except.error ()
    aUpstream := fun _ => Except.ok ⟨true, true, [⟨some 100, some 10, some 12, some 9⟩]⟩ }

/-- C7 counterexample: the code "gbfoo" does not carry the US prefix
`gb.`, so by the claim it should be routed to the domestic adapter
unchanged — which here would succeed — but the orchestrator checks only
`startswith("gb")` and sends it to the US adapter, which fails. -/
theorem fetch_index_data_gb_prefix :
    (pyStartsWith "gbfoo" "gb." = false) ∧
    (pyStartsWith "gbfoo" "gb" = true) ∧
    fetch_index_data 100 envC7 "标普500" "gbfoo" = none ∧
    fetch_a_share_index 100 envC7.aUpstream "gbfoo" =
      some ⟨10, 12, 100, 9, 100, none⟩ := by decide

/-- C7 (amended): for a non-special index the orchestrator routes by code
prefix in fixed order — codes starting with `hk` to the Hong Kong
adapter, then codes starting with `gb` (the dot is not part of the
check) to the US adapter, all remaining codes to the domestic adapter
unchanged.  The Hong Kong adapter consults its upstream exactly at the
code with every occurrence of "hk" removed; the US adapter consults its
upstream exactly at the code with every occurrence of "gb." removed and
the aliases INX/NDX mapped to .INX/.NDX. -/
theorem fetch_index_data_routing (now : Int) (env env2 : FetchEnv) (name symbol : String)
    (hn : name ≠ ZHONGGAI) :
    (pyStartsWith symbol "hk" = true →
      fetch_index_data now env name symbol = fetch_hongkong_index now env.hkUpstream symbol ∧
      (env.hkUpstream (pyReplace symbol "hk" "") = env2.hkUpstream (pyReplace symbol "hk" "") →
        fetch_hongkong_index now env.hkUpstream symbol =
          fetch_hongkong_index now env2.hkUpstream symbol)) ∧
    (pyStartsWith symbol "hk" = false → pyStartsWith symbol "gb" = true →
      fetch_index_data now env name symbol = fetch_us_index now env.usUpstream symbol ∧
      (env.usUpstream (usSymbol symbol) = env2.usUpstream (usSymbol symbol) →
        fetch_us_index now env.usUpstream symbol = fetch_us_index now env2.usUpstream symbol)) ∧
    (pyStartsWith symbol "hk" = false → pyStartsWith symbol "gb" = false →
      fetch_index_data now env name symbol = fetch_a_share_index now env.aUpstream symbol ∧
      (env.aUpstream symbol = env2.aUpstream symbol →
        fetch_a_share_index now env.aUpstream symbol =
          fetch_a_share_index now env2.aUpstream symbol)) := by
  refine ⟨?_, ?_, ?_⟩
  · intro hhk
    constructor
    · rw [fetch_index_data_nonspecial now env name symbol hn, if_pos hhk]
    · intro hagree
      simp only [fetch_hongkong_index, hkSymbol]
      rw [hagree]
  · intro hhk hgb
    constructor
    · rw [fetch_index_data_nonspecial now env name symbol hn, if_neg, if_pos hgb]
      rw [hhk]
      simp
    · intro hagree
      simp only [fetch_us_index]
      rw [hagree]
  · intro hhk hgb
    constructor
    · rw [fetch_index_data_nonspecial now env name symbol hn, if_neg, if_neg]
      · rw [hgb]
        simp
      · rw [hhk]
        simp
    · intro hagree
      simp only [fetch_a_share_index]
      rw [hagree]

/-- Concrete instantiation of `fetch_index_data_routing` on the Hong Kong
branch. -/
theorem fetch_index_data_routing_witness :
    fetch_index_data 100 envC7 "恒生指数" "hkHSI" =
        fetch_hongkong_index 100 envC7.hkUpstream "hkHSI" ∧
      (envC7.hkUpstream (pyReplace "hkHSI" "hk" "") =
          envC7.hkUpstream (pyReplace "hkHSI" "hk" "") →
        fetch_hongkong_index 100 envC7.hkUpstream "hkHSI" =
          fetch_hongkong_index 100 envC7.hkUpstream "hkHSI") :=
  (fetch_index_data_routing 100 envC7 envC7 "恒生指数" "hkHSI" (by decide)).1 rfl

/-- Config.INDEX_GROUPS (src/app.py lines 30-58): display group → list of
(index display name, provider routing code). -/
def INDEX_GROUPS : List (String × List (String × String)) :=
  [("🏛 核心宽基",
    [("上证指数", "sh000001"), ("创业板指", "sz399006"), ("沪深300", "sh000300"),
     ("中证500", "sh000905"), ("上证50", "sh000016"), ("中证1000", "sh000852")]),
   ("💊 行业板块",
    [("中证红利", "sh000922"), ("中证医疗", "sz399989"), ("全指医药", "sh000991"),
     ("全指消费", "sh000990"), ("中证消费", "sh000932"), ("全指信息", "sh000993"),
     ("中证传媒", "sz399971"), ("食品饮料", "sz399396"), ("中证军工", "sz399967"),
     ("中概互联", "H30533")]),
   ("🌍 全球市场",
    [("恒生指数", "hkHSI"), ("恒生科技", "hkHSTECH"), ("恒生医疗", "hkHSHCI"),
     ("标普500", "gb.INX"), ("纳指100", "gb.NDX")])]

/-- Embedding of `DataManager.get_all_index_names` (src/app.py lines 67-72). -/
def get_all_index_names : List String :=
  (INDEX_GROUPS.map (fun g => g.2.map (fun p => p.1))).flatten

/-- One journal entry as stored in the notes lists: the ISO "YYYY-MM-DD"
date string produced by `str(date_input)` and the stripped content.
Python compares these date strings lexicographically, which for the
fixed-width ISO format coincides with chronological order; the embedding
uses the lexicographic `String` order of Lean. -/
structure JournalNote where
  date : String
  content : String
deriving DecidableEq

/-- The in-memory document `st.session_state.db`: the three top-level
maps keyed by index display name.  Python dicts are embedded as
functions to `Option`. -/
structure DataDoc where
  supports : String → Option Int
  atmospheres : String → Option Int
  notes : String → Option (List JournalNote)

/-- The `default_data` document built at the top of `DataManager.load`:
support 3000, ceiling ("atmosphere") 4000 and an empty notes list for
every configured index name. -/
def defaultData : DataDoc :=
  { supports := fun n => if n ∈ get_all_index_names then some 3000 else none
    atmospheres := fun n => if n ∈ get_all_index_names then some 4000 else none
    notes := fun n => if n ∈ get_all_index_names then some [] else none }

/-- A well-typed parse of the persisted JSON file: each top-level key may
be absent (the `if key in saved` check), and a present map holds
arbitrary per-name entries. -/
structure SavedDoc where
  supports : Option (String → Option Int)
  atmospheres : Option (String → Option Int)
  notes : Option (String → Option (List JournalNote))

/-- The states the persistence file can be in when `DataManager.load`
runs: missing (`os.path.exists` false), unreadable (`open` raises),
malformed (`json.load` raises), or parsed into a document. -/
inductive FileState where
  | absent
  | unreadable
  | malformed
  | parsed (doc : SavedDoc)

/-- Embedding of the per-key `dict.update` merge: entries of the saved map win
over the defaults; an absent top-level key leaves the defaults. -/
def updateMap {α : Type} (base : String → Option α)
    (saved : Option (String → Option α)) : String → Option α :=
  fun n =>
    match saved with
    | none => base n
    | some m =>
      match m n with
      | some v => some v
      | none => base n

/-- Embedding of `DataManager.load` (src/app.py lines 74-94): build the full default
document; when the file exists and parses, merge each present top-level
map over the defaults; any read or parse failure is caught (a warning is
shown) and the defaults are returned — the function never raises. -/
def load (fs : FileState) : DataDoc :=
  match fs with
  | .absent => defaultData
  | .unreadable => defaultData
  | .malformed => defaultData
  | .parsed doc =>
    { supports := updateMap defaultData.supports doc.supports
      atmospheres := updateMap defaultData.atmospheres doc.atmospheres
      notes := updateMap defaultData.notes doc.notes }

/-- Embedding of `DataManager.save`: it writes the whole session document; a later
`DataManager.load` sees it as a fully-populated parsed file. -/
def saveFile (db : DataDoc) : FileState :=
  .parsed { supports := some db.supports
            atmospheres := some db.atmospheres
            notes := some db.notes }

/-- The add-note mutation in `UIComponents._render_notes_section`
(src/app.py lines 597-606): ensure the key exists, append the entry,
re-sort the list descending by the date string, persist.  The Python
`list.sort(key=..., reverse=True)` is embedded as an insertion sort with
the descending comparison. -/
def addNote (db : DataDoc) (name : String) (note : JournalNote) : DataDoc :=
  { db with notes := fun n =>
      if n = name then
        some (List.insertionSort (fun a b : JournalNote => b.date ≤ a.date)
          (((db.notes name).getD []) ++ [note]))
      else db.notes n }

instance : IsTotal JournalNote (fun a b => b.date ≤ a.date) :=
  ⟨fun a b => le_total b.date a.date⟩

instance : IsTrans JournalNote (fun a b => b.date ≤ a.date) :=
  ⟨fun _ _ _ h1 h2 => le_trans h2 h1⟩

/-- C8: for every configured index name, reading thresholds with nothing
saved yields the defaults support 3000 and ceiling 4000, and loading a
partial document merges its entries over these defaults: a name present
in a saved map takes the saved value, while a missing name — or a whole
missing key — keeps the default. -/
theorem load_merges_defaults (doc : SavedDoc) (name : String)
    (hmem : name ∈ get_all_index_names) :
    ((load .absent).supports name = some 3000 ∧
     (load .absent).atmospheres name = some 4000) ∧
    ((doc.supports = none ∨ ∃ m, doc.supports = some m ∧ m name = none) →
      (load (.parsed doc)).supports name = some 3000) ∧
    ((doc.atmospheres = none ∨ ∃ m, doc.atmospheres = some m ∧ m name = none) →
      (load (.parsed doc)).atmospheres name = some 4000) ∧
    (∀ m v, doc.supports = some m → m name = some v →
      (load (.parsed doc)).supports name = some v) ∧
    (∀ m v, doc.atmospheres = some m → m name = some v →
      (load (.parsed doc)).atmospheres name = some v) := by
  refine ⟨⟨?_, ?_⟩, ?_, ?_, ?_, ?_⟩
  · simp [load, defaultData, hmem]
  · simp [load, defaultData, hmem]
  · rintro (h | ⟨m, hm, hname⟩)
    · simp [load, updateMap, h, defaultData, hmem]
    · simp [load, updateMap, hm, hname, defaultData, hmem]
  · rintro (h | ⟨m, hm, hname⟩)
    · simp [load, updateMap, h, defaultData, hmem]
    · simp [load, updateMap, hm, hname, defaultData, hmem]
  · intro m v hm hv
    simp [load, updateMap, hm, hv]
  · intro m v hm hv
    simp [load, updateMap, hm, hv]

/-- A partial saved document holding a single support entry, as an older
or trimmed persistence file would. -/
def partialDoc : SavedDoc :=
  { supports := some (fun n => if n = "上证指数" then some 2500 else none)
    atmospheres := none
    notes := none }

/-- Concrete instantiation of `load_merges_defaults` on `partialDoc` and
the configured name 沪深300. -/
theorem load_merges_defaults_witness :
    ((load .absent).supports "沪深300" = some 3000 ∧
     (load .absent).atmospheres "沪深300" = some 4000) ∧
    ((partialDoc.supports = none ∨ ∃ m, partialDoc.supports = some m ∧ m "沪深300" = none) →
      (load (.parsed partialDoc)).supports "沪深300" = some 3000) ∧
    ((partialDoc.atmospheres = none ∨ ∃ m, partialDoc.atmospheres = some m ∧ m "沪深300" = none) →
      (load (.parsed partialDoc)).atmospheres "沪深300" = some 4000) ∧
    (∀ m v, partialDoc.supports = some m → m "沪深300" = some v →
      (load (.parsed partialDoc)).supports "沪深300" = some v) ∧
    (∀ m v, partialDoc.atmospheres = some m → m "沪深300" = some v →
      (load (.parsed partialDoc)).atmospheres "沪深300" = some v) :=
  load_merges_defaults partialDoc "沪深300" (by decide)

/-- C9: after the add-note mutation, the journal list of the index holds
exactly the previous entries plus the appended one (a permutation) and
is sorted newest-first by date; the document handed to `DataManager.save`
is the updated document itself, so reloading what was saved yields the
same sorted list for that index. -/
theorem addNote_sorted_persisted (db : DataDoc) (name : String) (note : JournalNote) :
    ∃ l, (addNote db name note).notes name = some l ∧
      l.Pairwise (fun a b : JournalNote => b.date ≤ a.date) ∧
      l.Perm (((db.notes name).getD []) ++ [note]) ∧
      (load (saveFile (addNote db name note))).notes name = some l := by
  refine ⟨List.insertionSort (fun a b : JournalNote => b.date ≤ a.date)
      (((db.notes name).getD []) ++ [note]), ?_, ?_, ?_, ?_⟩
  · simp [addNote]
  · exact List.sorted_insertionSort _ _
  · exact List.perm_insertionSort _ _
  · simp [load, saveFile, updateMap, addNote]

/-- C10: loading persisted state is total over every failure mode of the
file — absent, unreadable, or malformed JSON — and in each case returns
the complete default document: support 3000, ceiling 4000 and an empty
notes list for every configured index name. -/
theorem load_total_defaults (fs : FileState)
    (hfs : fs = .absent ∨ fs = .unreadable ∨ fs = .malformed)
    (name : String) (hmem : name ∈ get_all_index_names) :
    (load fs).supports name = some 3000 ∧
    (load fs).atmospheres name = some 4000 ∧
    (load fs).notes name = some [] := by
  rcases hfs with rfl | rfl | rfl <;>
    exact ⟨by simp [load, defaultData, hmem], by simp [load, defaultData, hmem],
      by simp [load, defaultData, hmem]⟩

/-- Concrete instantiation of `load_total_defaults` on a malformed file. -/
theorem load_total_defaults_witness :
    (load .malformed).supports "上证指数" = some 3000 ∧
    (load .malformed).atmospheres "上证指数" = some 4000 ∧
    (load .malformed).notes "上证指数" = some [] :=
  load_total_defaults .malformed (Or.inr (Or.inr rfl)) "上证指数" (by decide)

end StockMonitor
